import Mathlib

/-!
Verification of the CosineKernel from src/gpytorch/kernels/cosine_kernel.py.

Batched inputs of shape (b, n, d) are embedded as functions
Fin b → Fin n → Fin d → ℝ; the (batch_size, 1, 1) period-length parameter
collapses its trivial trailing axes to a function Fin b → ℝ, restored where a
shape claim needs them.  torch.norm(·, 2, dim=-1) is the Euclidean norm over
the last axis, torch.clamp(v, lo, hi) is min (max v lo) hi, and broadcasting
of the (b, 1, 1) parameter over (b, n, d) pairs batch elements index-wise.
A parallel list-based embedding carries the shape claims.
-/

namespace CosineKernel

/-- The period_length property: log_period_length.exp().clamp(eps, 1e5),
read pointwise over the batch axis. -/
noncomputable def period_length (eps : ℝ) {b : ℕ} (logp : Fin b → ℝ) : Fin b → ℝ :=
  fun β => min (max (Real.exp (logp β)) eps) 100000

/-- preprocess_data: divide both inputs by the period length, the (b, 1, 1)
parameter broadcasting over the (b, n, d) inputs batch-element-wise. -/
noncomputable def preprocess_data {b n1 n2 d : ℕ} (p : Fin b → ℝ)
    (x1 : Fin b → Fin n1 → Fin d → ℝ) (x2 : Fin b → Fin n2 → Fin d → ℝ) :
    (Fin b → Fin n1 → Fin d → ℝ) × (Fin b → Fin n2 → Fin d → ℝ) :=
  (fun β i k => x1 β i k / p β, fun β j k => x2 β j k / p β)

/-- forward: diff = torch.norm(x1.unsqueeze(2) - x2.unsqueeze(1), 2, dim=-1);
res = torch.cos(diff.mul(pi)). -/
noncomputable def forward {b n1 n2 d : ℕ}
    (x1 : Fin b → Fin n1 → Fin d → ℝ) (x2 : Fin b → Fin n2 → Fin d → ℝ) :
    Fin b → Fin n1 → Fin n2 → ℝ :=
  fun β i j => Real.cos (Real.sqrt (∑ k, (x1 β i k - x2 β j k) ^ 2) * Real.pi)

/-- The composed evaluation: preprocess_data followed by forward. -/
noncomputable def evaluate {b n1 n2 d : ℕ} (p : Fin b → ℝ)
    (x1 : Fin b → Fin n1 → Fin d → ℝ) (x2 : Fin b → Fin n2 → Fin d → ℝ) :
    Fin b → Fin n1 → Fin n2 → ℝ :=
  forward (preprocess_data p x1 x2).1 (preprocess_data p x1 x2).2

/-- The initial unconstrained parameter: torch.zeros(batch_size, 1, 1),
with the trivial axes collapsed. -/
def init_log_period_length (batch_size : ℕ) : Fin batch_size → ℝ :=
  fun _ => 0

/-- The pairwise Euclidean distance tensor, the intermediate diff of forward:
torch.norm(x1.unsqueeze(2) - x2.unsqueeze(1), 2, dim=-1). -/
noncomputable def pairwise_dist {b n1 n2 d : ℕ}
    (x1 : Fin b → Fin n1 → Fin d → ℝ) (x2 : Fin b → Fin n2 → Fin d → ℝ) :
    Fin b → Fin n1 → Fin n2 → ℝ :=
  fun β i j => Real.sqrt (∑ k, (x1 β i k - x2 β j k) ^ 2)

/-- The concrete input batch [[0, 0], [1, 0]] of the spec scenario, as a
single-element batch. -/
noncomputable def xC6 : Fin 1 → Fin 2 → Fin 2 → ℝ :=
  fun _ => ![![0, 0], ![1, 0]]

/-- The unconstrained parameter whose period_length is 2 in the spec
scenario. -/
noncomputable def logpC6 : Fin 1 → ℝ :=
  fun _ => Real.log 2

/-- A rank-3 tensor, as a nested list, has shape (b, n, d). -/
def hasShape3 (t : List (List (List ℝ))) (b n d : ℕ) : Prop :=
  t.length = b ∧ ∀ m ∈ t, m.length = n ∧ ∀ r ∈ m, r.length = d

/-- A rank-2 tensor, as a nested list, has shape (n, d). -/
def hasShape2 (t : List (List ℝ)) (n d : ℕ) : Prop :=
  t.length = n ∧ ∀ r ∈ t, r.length = d

instance instDecidableHasShape3 (t : List (List (List ℝ))) (b n d : ℕ) :
    Decidable (hasShape3 t b n d) :=
  inferInstanceAs
    (Decidable (t.length = b ∧ ∀ m ∈ t, m.length = n ∧ ∀ r ∈ m, r.length = d))

instance instDecidableHasShape2 (t : List (List ℝ)) (n d : ℕ) :
    Decidable (hasShape2 t n d) :=
  inferInstanceAs (Decidable (t.length = n ∧ ∀ r ∈ t, r.length = d))

/-- torch.zeros(batch_size, 1, 1), the registered parameter tensor, as a
nested list. -/
def init_log_period_length_tensor (batch_size : ℕ) : List (List (List ℝ)) :=
  List.replicate batch_size [[0]]

/-- preprocess_data on nested lists: the (batch, 1, 1) parameter broadcasts
over the (b, n, d) input, pairing batch elements index-wise. -/
noncomputable def preprocessL (p : List ℝ) (x : List (List (List ℝ))) :
    List (List (List ℝ)) :=
  (x.zip p).map (fun q => q.1.map (fun r => r.map (fun a => a / q.2)))

/-- The Euclidean norm of the coordinate-wise difference of two points,
torch.norm(u - v, 2, dim=-1) on nested lists. -/
noncomputable def distL (u v : List ℝ) : ℝ :=
  Real.sqrt (((u.zip v).map (fun q => (q.1 - q.2) ^ 2)).sum)

/-- forward on nested lists: x1.unsqueeze(2) - x2.unsqueeze(1) broadcasts
batch elements index-wise, rows from x1, columns from x2. -/
noncomputable def forwardL (x1 x2 : List (List (List ℝ))) :
    List (List (List ℝ)) :=
  (x1.zip x2).map (fun q =>
    q.1.map (fun u => q.2.map (fun v => Real.cos (distL u v * Real.pi))))

/-- The composed evaluation on nested lists: preprocess_data then forward,
an explicit per-batch-element period length. -/
noncomputable def evaluateL (p : List ℝ) (x1 x2 : List (List (List ℝ))) :
    List (List (List ℝ)) :=
  forwardL (preprocessL p x1) (preprocessL p x2)

/-- Modelled from the spec: the KernelBase entry point for unbatched 2-D
inputs is in kernel.py, which is missing from the sources; the spec says the
system must treat the unbatched form as b = 1 implicitly, so a 2-D pair is
evaluated as a singleton batch and the batch axis dropped from the result. -/
noncomputable def evaluateL_unbatched (p : ℝ) (x1 x2 : List (List ℝ)) :
    List (List ℝ) :=
  (evaluateL [p] [x1] [x2]).headI

lemma period_length_pos (eps : ℝ) (heps : 0 < eps) {b : ℕ} (logp : Fin b → ℝ)
    (β : Fin b) : 0 < period_length eps logp β := by
  have h1 : eps ≤ max (Real.exp (logp β)) eps := le_max_right _ _
  have h2 : (0 : ℝ) < 100000 := by norm_num
  exact lt_min (lt_of_lt_of_le heps h1) h2

lemma evaluate_apply {b n1 n2 d : ℕ} (p : Fin b → ℝ)
    (x1 : Fin b → Fin n1 → Fin d → ℝ) (x2 : Fin b → Fin n2 → Fin d → ℝ)
    (β : Fin b) (i : Fin n1) (j : Fin n2) :
    evaluate p x1 x2 β i j =
      Real.cos (Real.sqrt (∑ k, (x1 β i k / p β - x2 β j k / p β) ^ 2) * Real.pi) :=
  rfl

/-- Dividing every coordinate by a positive scalar divides the Euclidean
distance by that scalar. -/
lemma sqrt_sum_div {d : ℕ} (u v : Fin d → ℝ) {c : ℝ} (hc : 0 < c) :
    Real.sqrt (∑ k, (u k / c - v k / c) ^ 2) =
      Real.sqrt (∑ k, (u k - v k) ^ 2) / c := by
  have hsum : (∑ k, (u k / c - v k / c) ^ 2) = (∑ k, (u k - v k) ^ 2) / c ^ 2 := by
    rw [Finset.sum_div]
    refine Finset.sum_congr rfl (fun k _ => ?_)
    field_simp
  rw [hsum, Real.sqrt_div (by positivity) (c ^ 2), Real.sqrt_sq hc.le]

lemma preprocessL_shape {b n d : ℕ} (p : List ℝ) (x : List (List (List ℝ)))
    (hp : p.length = b) (hx : hasShape3 x b n d) :
    hasShape3 (preprocessL p x) b n d := by
  obtain ⟨hlen, hmem⟩ := hx
  constructor
  · simp [preprocessL, hlen, hp]
  · intro m hm
    rw [preprocessL, List.mem_map] at hm
    obtain ⟨q, hq, rfl⟩ := hm
    obtain ⟨hq1, _⟩ := List.of_mem_zip hq
    obtain ⟨hql, hqr⟩ := hmem q.1 hq1
    constructor
    · simp [hql]
    · intro r hr
      rw [List.mem_map] at hr
      obtain ⟨r0, hr0, rfl⟩ := hr
      simp [hqr r0 hr0]

lemma forwardL_shape {b n1 n2 d : ℕ} (x1 x2 : List (List (List ℝ)))
    (h1 : hasShape3 x1 b n1 d) (h2 : hasShape3 x2 b n2 d) :
    hasShape3 (forwardL x1 x2) b n1 n2 := by
  obtain ⟨hlen1, hmem1⟩ := h1
  obtain ⟨hlen2, hmem2⟩ := h2
  constructor
  · simp [forwardL, hlen1, hlen2]
  · intro m hm
    rw [forwardL, List.mem_map] at hm
    obtain ⟨q, hq, rfl⟩ := hm
    obtain ⟨hq1, hq2⟩ := List.of_mem_zip hq
    constructor
    · simp [(hmem1 q.1 hq1).1]
    · intro r hr
      rw [List.mem_map] at hr
      obtain ⟨r0, hr0, rfl⟩ := hr
      simp [(hmem2 q.2 hq2).1]

lemma headI_shape {n1 n2 : ℕ} (t : List (List (List ℝ)))
    (ht : hasShape3 t 1 n1 n2) : hasShape2 t.headI n1 n2 := by
  obtain ⟨hlen, hmem⟩ := ht
  obtain ⟨z, rfl⟩ := List.length_eq_one.mp hlen
  exact hmem z (List.mem_singleton_self z)

end CosineKernel

namespace CosineKernel

/-- Claim C1: for every period length (the current value of the period_length
property, built from any unconstrained parameter and any positive eps) and
every pair of batched inputs, the composed evaluation returns at (β, i, j)
the cosine of pi times the Euclidean distance between point i of x1 and
point j of x2, divided by that batch element's period length. -/
theorem evaluate_eq_cos_pi_dist_div_period {b n1 n2 d : ℕ} (eps : ℝ)
    (heps : 0 < eps) (logp : Fin b → ℝ)
    (x1 : Fin b → Fin n1 → Fin d → ℝ) (x2 : Fin b → Fin n2 → Fin d → ℝ)
    (β : Fin b) (i : Fin n1) (j : Fin n2) :
    evaluate (period_length eps logp) x1 x2 β i j =
      Real.cos (Real.pi * Real.sqrt (∑ k, (x1 β i k - x2 β j k) ^ 2) /
        period_length eps logp β) := by
  have hp := period_length_pos eps heps logp β
  rw [evaluate_apply, sqrt_sum_div _ _ hp]
  congr 1
  ring

/-- Witness for C1 at eps = 10⁻⁶, zero unconstrained parameter, and
one-point one-dimensional inputs 0 and 1. -/
theorem evaluate_eq_cos_pi_dist_div_period_witness :
    (0 : ℝ) < 1 / 1000000 ∧
      evaluate (period_length (1 / 1000000) (init_log_period_length 1))
          (fun _ _ _ => (0 : ℝ) : Fin 1 → Fin 1 → Fin 1 → ℝ)
          (fun _ _ _ => (1 : ℝ) : Fin 1 → Fin 1 → Fin 1 → ℝ) 0 0 0 =
        Real.cos (Real.pi * Real.sqrt (∑ _ : Fin 1, ((0 : ℝ) - 1) ^ 2) /
          period_length (1 / 1000000) (init_log_period_length 1) 0) :=
  ⟨by norm_num,
    evaluate_eq_cos_pi_dist_div_period (1 / 1000000) (by norm_num)
      (init_log_period_length 1) (fun _ _ _ => 0) (fun _ _ _ => 1) 0 0 0⟩

/-- Claim C2: for every value of the unconstrained parameter log_period_length,
the period_length property lies in the closed interval [eps, 1e5] (eps the
construction-time constant, positive and at most 1e5, default 1e-6); in
particular it is strictly positive. -/
theorem period_length_mem_Icc {b : ℕ} (eps : ℝ) (heps : 0 < eps)
    (hle : eps ≤ 100000) (logp : Fin b → ℝ) (β : Fin b) :
    eps ≤ period_length eps logp β ∧ period_length eps logp β ≤ 100000 ∧
      0 < period_length eps logp β := by
  refine ⟨le_min (le_trans (le_max_right _ _) le_rfl) hle, min_le_right _ _, ?_⟩
  exact period_length_pos eps heps logp β

/-- Witness for C2 at eps = 10⁻⁶ and the extreme unconstrained value 10⁹. -/
theorem period_length_mem_Icc_witness :
    (0 : ℝ) < 1 / 1000000 ∧ (1 / 1000000 : ℝ) ≤ 100000 ∧
      ((1 / 1000000 : ℝ) ≤ period_length (1 / 1000000)
          (fun _ : Fin 1 => (1000000000 : ℝ)) 0 ∧
        period_length (1 / 1000000) (fun _ : Fin 1 => (1000000000 : ℝ)) 0 ≤ 100000 ∧
        0 < period_length (1 / 1000000) (fun _ : Fin 1 => (1000000000 : ℝ)) 0) :=
  ⟨by norm_num, by norm_num,
    period_length_mem_Icc (1 / 1000000) (by norm_num) (by norm_num)
      (fun _ => 1000000000) 0⟩

/-- Claim C3: for every input batch x and every period length, the composed
evaluation at (x, x) is symmetric: entry (β, i, j) equals entry (β, j, i). -/
theorem evaluate_self_symm {b n d : ℕ} (p : Fin b → ℝ)
    (x : Fin b → Fin n → Fin d → ℝ) (β : Fin b) (i j : Fin n) :
    evaluate p x x β i j = evaluate p x x β j i := by
  have h : (∑ k, (x β i k / p β - x β j k / p β) ^ 2) =
      ∑ k, (x β j k / p β - x β i k / p β) ^ 2 :=
    Finset.sum_congr rfl (fun k _ => by ring)
  rw [evaluate_apply, evaluate_apply, h]

/-- Claim C4: every entry of the composed evaluation lies in [-1, 1]. -/
theorem evaluate_mem_Icc {b n1 n2 d : ℕ} (p : Fin b → ℝ)
    (x1 : Fin b → Fin n1 → Fin d → ℝ) (x2 : Fin b → Fin n2 → Fin d → ℝ)
    (β : Fin b) (i : Fin n1) (j : Fin n2) :
    -1 ≤ evaluate p x1 x2 β i j ∧ evaluate p x1 x2 β i j ≤ 1 := by
  rw [evaluate_apply]
  exact ⟨Real.neg_one_le_cos _, Real.cos_le_one _⟩

/-- Claim C8: batch independence — entry β of a batched evaluation equals the
evaluation of that batch element's pair alone with that batch element's
parameter slice. -/
theorem evaluate_batch_independent {b n1 n2 d : ℕ} (p : Fin b → ℝ)
    (x1 : Fin b → Fin n1 → Fin d → ℝ) (x2 : Fin b → Fin n2 → Fin d → ℝ)
    (β : Fin b) (i : Fin n1) (j : Fin n2) :
    evaluate p x1 x2 β i j =
      evaluate (fun _ : Fin 1 => p β) (fun _ => x1 β) (fun _ => x2 β) 0 i j :=
  rfl

/-- Claim C9: for every input batch x and every period length, the diagonal of
the composed evaluation at (x, x) is exactly 1. -/
theorem evaluate_self_diag_eq_one {b n d : ℕ} (p : Fin b → ℝ)
    (x : Fin b → Fin n → Fin d → ℝ) (β : Fin b) (i : Fin n) :
    evaluate p x x β i i = 1 := by
  rw [evaluate_apply]
  simp

/-- Claim C10: translation invariance — adding a constant vector c to every
point of both inputs leaves the composed evaluation unchanged. -/
theorem evaluate_translation_invariant {b n1 n2 d : ℕ} (p : Fin b → ℝ)
    (x1 : Fin b → Fin n1 → Fin d → ℝ) (x2 : Fin b → Fin n2 → Fin d → ℝ)
    (c : Fin d → ℝ) :
    evaluate p (fun β i k => x1 β i k + c k) (fun β j k => x2 β j k + c k) =
      evaluate p x1 x2 := by
  funext β i j
  have h : (∑ k, ((x1 β i k + c k) / p β - (x2 β j k + c k) / p β) ^ 2) =
      ∑ k, (x1 β i k / p β - x2 β j k / p β) ^ 2 :=
    Finset.sum_congr rfl (fun k _ => by ring)
  rw [evaluate_apply, evaluate_apply, h]

/-- Claim C5: on (b, n1, d) and (b, n2, d) inputs the composed evaluation has
shape (b, n1, n2), and on unbatched (n1, d) and (n2, d) inputs it has shape
(n1, n2). -/
theorem evaluate_shape {b n1 n2 d : ℕ} (p : List ℝ) (x1 x2 : List (List (List ℝ)))
    (q : ℝ) (y1 y2 : List (List ℝ)) (hp : p.length = b)
    (h1 : hasShape3 x1 b n1 d) (h2 : hasShape3 x2 b n2 d)
    (hy1 : hasShape2 y1 n1 d) (hy2 : hasShape2 y2 n2 d) :
    hasShape3 (evaluateL p x1 x2) b n1 n2 ∧
      hasShape2 (evaluateL_unbatched q y1 y2) n1 n2 := by
  have hy1w : hasShape3 [y1] 1 n1 d :=
    ⟨rfl, fun m hm => by rw [List.mem_singleton] at hm; rw [hm]; exact hy1⟩
  have hy2w : hasShape3 [y2] 1 n2 d :=
    ⟨rfl, fun m hm => by rw [List.mem_singleton] at hm; rw [hm]; exact hy2⟩
  constructor
  · exact forwardL_shape _ _ (preprocessL_shape p x1 hp h1) (preprocessL_shape p x2 hp h2)
  · exact headI_shape _ (forwardL_shape _ _ (preprocessL_shape [q] [y1] rfl hy1w)
      (preprocessL_shape [q] [y2] rfl hy2w))

/-- Witness for C5 on concrete batched inputs of shapes (2, 2, 2) and
(2, 1, 2) and unbatched inputs of shapes (2, 2) and (1, 2). -/
theorem evaluate_shape_witness :
    ([(1 : ℝ), 1].length = 2 ∧
      hasShape3 [[[(1 : ℝ), 2], [3, 4]], [[5, 6], [7, 8]]] 2 2 2 ∧
      hasShape3 [[[(1 : ℝ), 1]], [[2, 2]]] 2 1 2 ∧
      hasShape2 [[(1 : ℝ), 2], [3, 4]] 2 2 ∧
      hasShape2 [[(0 : ℝ), 0]] 1 2) ∧
    (hasShape3 (evaluateL [(1 : ℝ), 1] [[[(1 : ℝ), 2], [3, 4]], [[5, 6], [7, 8]]]
        [[[(1 : ℝ), 1]], [[2, 2]]]) 2 2 1 ∧
      hasShape2 (evaluateL_unbatched 1 [[(1 : ℝ), 2], [3, 4]] [[(0 : ℝ), 0]]) 2 1) :=
  ⟨⟨by decide, by decide, by decide, by decide, by decide⟩,
    @evaluate_shape 2 2 1 2 [(1 : ℝ), 1] [[[(1 : ℝ), 2], [3, 4]], [[5, 6], [7, 8]]]
      [[[(1 : ℝ), 1]], [[2, 2]]] 1 [[(1 : ℝ), 2], [3, 4]] [[(0 : ℝ), 0]]
      (by decide) (by decide) (by decide) (by decide) (by decide)⟩

/-- Claim C6: for x1 = x2 = [[0, 0], [1, 0]] with period_length = 2 the scaled
pairwise distances are [[0, 1/2], [1/2, 0]] and the output matrix is
[[1, cos(pi/2)], [cos(pi/2), 1]] = [[1, 0], [0, 1]]. -/
theorem concrete_period_two_scenario :
    (pairwise_dist (preprocess_data (period_length (1 / 1000000) logpC6) xC6 xC6).1
          (preprocess_data (period_length (1 / 1000000) logpC6) xC6 xC6).2 0 0 0 = 0 ∧
      pairwise_dist (preprocess_data (period_length (1 / 1000000) logpC6) xC6 xC6).1
          (preprocess_data (period_length (1 / 1000000) logpC6) xC6 xC6).2 0 0 1 = 1 / 2 ∧
      pairwise_dist (preprocess_data (period_length (1 / 1000000) logpC6) xC6 xC6).1
          (preprocess_data (period_length (1 / 1000000) logpC6) xC6 xC6).2 0 1 0 = 1 / 2 ∧
      pairwise_dist (preprocess_data (period_length (1 / 1000000) logpC6) xC6 xC6).1
          (preprocess_data (period_length (1 / 1000000) logpC6) xC6 xC6).2 0 1 1 = 0) ∧
    (evaluate (period_length (1 / 1000000) logpC6) xC6 xC6 0 0 0 = 1 ∧
      evaluate (period_length (1 / 1000000) logpC6) xC6 xC6 0 0 1 = 0 ∧
      evaluate (period_length (1 / 1000000) logpC6) xC6 xC6 0 1 0 = 0 ∧
      evaluate (period_length (1 / 1000000) logpC6) xC6 xC6 0 1 1 = 1) := by
  have hp : period_length (1 / 1000000) logpC6 0 = 2 := by
    unfold period_length logpC6
    rw [Real.exp_log (by norm_num : (0 : ℝ) < 2)]
    rw [max_eq_left (by norm_num), min_eq_left (by norm_num)]
  have hsum0 : ∀ i : Fin 2, (∑ k : Fin 2, (xC6 0 i k / (2 : ℝ) - xC6 0 i k / 2) ^ 2) = 0 := by
    intro i; simp
  have hsum01 : (∑ k : Fin 2, (xC6 0 0 k / (2 : ℝ) - xC6 0 1 k / 2) ^ 2) = 1 / 4 := by
    rw [Fin.sum_univ_two]
    norm_num [xC6, Matrix.cons_val_zero, Matrix.cons_val_one, Matrix.head_cons]
  have hsum10 : (∑ k : Fin 2, (xC6 0 1 k / (2 : ℝ) - xC6 0 0 k / 2) ^ 2) = 1 / 4 := by
    rw [Fin.sum_univ_two]
    norm_num [xC6, Matrix.cons_val_zero, Matrix.cons_val_one, Matrix.head_cons]
  have h14 : Real.sqrt (1 / 4 : ℝ) = 1 / 2 := by
    rw [show (1 / 4 : ℝ) = (1 / 2) ^ 2 by norm_num,
      Real.sqrt_sq (by norm_num : (0 : ℝ) ≤ 1 / 2)]
  have hcos : Real.cos ((1 / 2 : ℝ) * Real.pi) = 0 := by
    rw [show (1 / 2 : ℝ) * Real.pi = Real.pi / 2 by ring, Real.cos_pi_div_two]
  refine ⟨⟨?_, ?_, ?_, ?_⟩, ?_, ?_, ?_, ?_⟩
  · simp only [pairwise_dist, preprocess_data, hp]
    rw [hsum0 0, Real.sqrt_zero]
  · simp only [pairwise_dist, preprocess_data, hp]
    rw [hsum01, h14]
  · simp only [pairwise_dist, preprocess_data, hp]
    rw [hsum10, h14]
  · simp only [pairwise_dist, preprocess_data, hp]
    rw [hsum0 1, Real.sqrt_zero]
  · simp only [evaluate, forward, preprocess_data, hp]
    rw [hsum0 0, Real.sqrt_zero, zero_mul, Real.cos_zero]
  · simp only [evaluate, forward, preprocess_data, hp]
    rw [hsum01, h14, hcos]
  · simp only [evaluate, forward, preprocess_data, hp]
    rw [hsum10, h14, hcos]
  · simp only [evaluate, forward, preprocess_data, hp]
    rw [hsum0 1, Real.sqrt_zero, zero_mul, Real.cos_zero]

/-- Claim C7: construction registers one parameter of shape (batch_size, 1, 1)
whose every entry is 0, so that immediately after construction each batch
element's period_length equals clamp(exp 0, eps, 1e5) = 1 when eps ≤ 1. -/
theorem init_param_shape_and_period_one (bsz : ℕ) (eps : ℝ) (heps : eps ≤ 1) :
    hasShape3 (init_log_period_length_tensor bsz) bsz 1 1 ∧
      (∀ m ∈ init_log_period_length_tensor bsz, ∀ r ∈ m, ∀ a ∈ r, a = 0) ∧
      ∀ β : Fin bsz,
        period_length eps (init_log_period_length bsz) β =
            min (max (Real.exp 0) eps) 100000 ∧
          period_length eps (init_log_period_length bsz) β = 1 := by
  refine ⟨⟨?_, ?_⟩, ?_, ?_⟩
  · simp [init_log_period_length_tensor]
  · intro m hm
    rw [init_log_period_length_tensor] at hm
    rw [List.eq_of_mem_replicate hm]
    simp
  · intro m hm
    rw [init_log_period_length_tensor] at hm
    rw [List.eq_of_mem_replicate hm]
    simp
  · intro β
    refine ⟨rfl, ?_⟩
    unfold period_length init_log_period_length
    rw [Real.exp_zero, max_eq_left heps, min_eq_left (by norm_num)]

/-- Witness for C7 at batch_size = 2 and eps = 10⁻⁶. -/
theorem init_param_shape_and_period_one_witness :
    (1 / 1000000 : ℝ) ≤ 1 ∧
      (hasShape3 (init_log_period_length_tensor 2) 2 1 1 ∧
        (∀ m ∈ init_log_period_length_tensor 2, ∀ r ∈ m, ∀ a ∈ r, a = 0) ∧
        ∀ β : Fin 2,
          period_length (1 / 1000000) (init_log_period_length 2) β =
              min (max (Real.exp 0) (1 / 1000000)) 100000 ∧
            period_length (1 / 1000000) (init_log_period_length 2) β = 1) :=
  ⟨by norm_num, init_param_shape_and_period_one 2 (1 / 1000000) (by norm_num)⟩

end CosineKernel
